import Mathlib

/-!
Shallow embedding of the phase-synchrony engine of `erp_phase_analysis.py`.

The engine operates on a real-valued three-dimensional tensor indexed
[trial, channel, sample].  We model the tensor as a structure carrying the
three axis lengths and a total value function; rectangularity is thereby
built in (the claims under study only concern well-formed tensors).

Channel indexing follows numpy semantics: an integer index `i` into an axis
of length `n` is valid iff `-n ≤ i < n`; a negative index wraps to `n + i`;
anything else raises `IndexError`.  Fallible functions return
`Except String _`.

The analytic signal is `scipy.signal.hilbert`, which computes
`ifft(fft(x) * h)` along the sample axis, where `h` is the one-sided
spectral weight vector (`h[0] = 1`, `h[k] = 2` for `0 < k < n/2`,
`h[n/2] = 1` for even `n`, `0` otherwise).  We embed the DFT/IDFT directly.

Floating-point is modelled over ℝ.  The single place where IEEE semantics
matters to the claims is wPLI's `num / denom` division: when `denom = 0`
numpy produces a non-finite value (NaN, since the numerator provably
vanishes with the denominator) instead of a real number, which we encode as
`Option ℝ` with `none` standing for the non-finite result.
-/

namespace ErpPhaseAnalysis

/-- A well-formed [trial, channel, sample] tensor: axis lengths plus values. -/
structure Tensor where
  trials : ℕ
  channels : ℕ
  samples : ℕ
  val : ℕ → ℕ → ℕ → ℝ

/-- numpy integer indexing into an axis of length `n`: indices in `[0, n)`
are taken as-is, indices in `[-n, 0)` wrap to `n + i`, all others are
invalid (`IndexError`). -/
def npIndex (n : ℕ) (i : ℤ) : Option ℕ :=
  if 0 ≤ i ∧ i < (n : ℤ) then some i.toNat
  else if -(n : ℤ) ≤ i ∧ i < 0 then some (i + (n : ℤ)).toNat
  else none

/-- Forward DFT of length `n` (numpy `fft`: negative exponent, unnormalized). -/
noncomputable def dft (n : ℕ) (x : ℕ → ℂ) (k : ℕ) : ℂ :=
  ∑ j in Finset.range n, x j * Complex.exp (-2 * (Real.pi : ℂ) * Complex.I * (j : ℂ) * (k : ℂ) / (n : ℂ))

/-- Inverse DFT of length `n` (numpy `ifft`: positive exponent, `1/n` factor). -/
noncomputable def idft (n : ℕ) (x : ℕ → ℂ) (j : ℕ) : ℂ :=
  (∑ k in Finset.range n, x k * Complex.exp (2 * (Real.pi : ℂ) * Complex.I * (j : ℂ) * (k : ℂ) / (n : ℂ))) / (n : ℂ)

/-- The one-sided spectral weight vector used by `scipy.signal.hilbert`. -/
def hilbertWeight (n k : ℕ) : ℂ :=
  if k = 0 then 1 else if 2 * k < n then 2 else if 2 * k = n then 1 else 0

/-- `scipy.signal.hilbert` on one real sequence of length `n`:
`ifft(fft(x) * h)`, the analytic signal. -/
noncomputable def hilbert1d (n : ℕ) (x : ℕ → ℝ) (j : ℕ) : ℂ :=
  idft n (fun k => dft n (fun i => (x i : ℂ)) k * hilbertWeight n k) j

/-- Analytic signal of channel `c` of the tensor: `hilbert(data[:, c, :])`,
applied along the sample axis, trial row by trial row. -/
noncomputable def analyticSignal (d : Tensor) (c : ℕ) (t s : ℕ) : ℂ :=
  hilbert1d d.samples (fun s0 => d.val t c s0) s

/-- Cross-spectrum body of `calculate_cross_spectrum_hilbert`:
`hilbert(data[:, ch1, :]) * np.conj(hilbert(data[:, ch2, :]))`. -/
noncomputable def crossSpectrum (d : Tensor) (c1 c2 t s : ℕ) : ℂ :=
  analyticSignal d c1 t s * (starRingEnd ℂ) (analyticSignal d c2 t s)

/-- `calculate_cross_spectrum_hilbert(data, chs1, chs2)`: numpy index checks
on the two channel indices, then the cross-spectrum array. -/
noncomputable def calculate_cross_spectrum_hilbert (d : Tensor) (ch1 ch2 : ℤ) :
    Except String (ℕ → ℕ → ℂ) :=
  match npIndex d.channels ch1, npIndex d.channels ch2 with
  | some c1, some c2 => .ok (crossSpectrum d c1 c2)
  | _, _ => .error ("IndexError")

/-- `np.angle(analytic_signal_ch1) - np.angle(analytic_signal_ch2)`:
the raw, unwrapped per-trial per-sample phase difference. -/
noncomputable def phaseDifference (d : Tensor) (c1 c2 t s : ℕ) : ℝ :=
  (analyticSignal d c1 t s).arg - (analyticSignal d c2 t s).arg

/-- Per-sample PLV value: `np.abs(np.mean(np.exp(1j * phase_difference), axis=0))`. -/
noncomputable def plvSample (d : Tensor) (c1 c2 s : ℕ) : ℝ :=
  Complex.abs ((∑ t in Finset.range d.trials,
    Complex.exp (Complex.I * (phaseDifference d c1 c2 t s : ℂ))) / (d.trials : ℂ))

/-- `calculate_plv(data, ch1, ch2)`. -/
noncomputable def calculate_plv (d : Tensor) (ch1 ch2 : ℤ) : Except String (List ℝ) :=
  match npIndex d.channels ch1, npIndex d.channels ch2 with
  | some c1, some c2 => .ok ((List.range d.samples).map (plvSample d c1 c2))
  | _, _ => .error ("IndexError")

/-- Per-sample iPLV value: the imaginary part of each per-trial
`exp(1j * phase_difference)` is taken first, then the trial mean, then `np.abs`. -/
noncomputable def iplvSample (d : Tensor) (c1 c2 s : ℕ) : ℝ :=
  |(∑ t in Finset.range d.trials,
    (Complex.exp (Complex.I * (phaseDifference d c1 c2 t s : ℂ))).im) / (d.trials : ℝ)|

/-- `calculate_iplv(data, ch1, ch2)`. -/
noncomputable def calculate_iplv (d : Tensor) (ch1 ch2 : ℤ) : Except String (List ℝ) :=
  match npIndex d.channels ch1, npIndex d.channels ch2 with
  | some c1, some c2 => .ok ((List.range d.samples).map (iplvSample d c1 c2))
  | _, _ => .error ("IndexError")

/-- Per-sample PLI value: `np.abs(np.mean(np.sign(phase_difference), axis=0))`;
numpy `sign` on reals agrees with `Real.sign` (`-1`, `0`, `1`). -/
noncomputable def pliSample (d : Tensor) (c1 c2 s : ℕ) : ℝ :=
  |(∑ t in Finset.range d.trials, Real.sign (phaseDifference d c1 c2 t s)) / (d.trials : ℝ)|

/-- `calculate_pli(data, ch1, ch2)`. -/
noncomputable def calculate_pli (d : Tensor) (ch1 ch2 : ℤ) : Except String (List ℝ) :=
  match npIndex d.channels ch1, npIndex d.channels ch2 with
  | some c1, some c2 => .ok ((List.range d.samples).map (pliSample d c1 c2))
  | _, _ => .error ("IndexError")

/-- wPLI numerator at a sample:
`np.abs(np.mean(np.abs(s.imag) * np.sign(s.imag), axis=0))`. -/
noncomputable def wpliNum (d : Tensor) (c1 c2 s : ℕ) : ℝ :=
  |(∑ t in Finset.range d.trials,
    |(crossSpectrum d c1 c2 t s).im| * Real.sign ((crossSpectrum d c1 c2 t s).im)) / (d.trials : ℝ)|

/-- wPLI denominator at a sample: `np.mean(np.abs(s.imag), axis=0)`. -/
noncomputable def wpliDenom (d : Tensor) (c1 c2 s : ℕ) : ℝ :=
  (∑ t in Finset.range d.trials, |(crossSpectrum d c1 c2 t s).im|) / (d.trials : ℝ)

/-- Per-sample wPLI value: the source computes the bare float division
`num / denom` with no zero-denominator branch.  Under IEEE semantics a zero
denominator makes the quotient non-finite (NaN: the numerator provably
vanishes whenever the denominator does), encoded here as `none`. -/
noncomputable def wpliSample (d : Tensor) (c1 c2 s : ℕ) : Option ℝ :=
  if wpliDenom d c1 c2 s = 0 then none
  else some (wpliNum d c1 c2 s / wpliDenom d c1 c2 s)

/-- `calculate_wpli(data, ch1, ch2)`: builds on the cross-spectrum helper,
so the same numpy index checks apply. -/
noncomputable def calculate_wpli (d : Tensor) (ch1 ch2 : ℤ) :
    Except String (List (Option ℝ)) :=
  match npIndex d.channels ch1, npIndex d.channels ch2 with
  | some c1, some c2 => .ok ((List.range d.samples).map (wpliSample d c1 c2))
  | _, _ => .error ("IndexError")

/-- The spec's PLV formula (§4.2): magnitude of the arithmetic mean over
trials of `exp(i × (angle(analytic ch1) − angle(analytic ch2)))`, the phase
difference taken raw (not wrapped before exponentiation). -/
noncomputable def plvSpecSample (d : Tensor) (c1 c2 s : ℕ) : ℝ :=
  Complex.abs ((∑ t in Finset.range d.trials,
    Complex.exp (Complex.I *
      (((analyticSignal d c1 t s).arg : ℂ) - ((analyticSignal d c2 t s).arg : ℂ)))) /
    (d.trials : ℂ))

/-- The spec's iPLV formula (§4.3): the imaginary component of each
per-trial complex phase-difference value is extracted before the trial
average; then the average, then the absolute value. -/
noncomputable def iplvSpecSample (d : Tensor) (c1 c2 s : ℕ) : ℝ :=
  |(∑ t in Finset.range d.trials,
    (Complex.exp (Complex.I *
      (((analyticSignal d c1 t s).arg : ℂ) - ((analyticSignal d c2 t s).arg : ℂ)))).im) /
    (d.trials : ℝ)|

/-- The spec's PLI formula (§4.4): the sign function applied to the raw,
unwrapped phase difference (no complex exponential, no wrapping into
[−π, π]), averaged across trials, then the absolute value. -/
noncomputable def pliSpecSample (d : Tensor) (c1 c2 s : ℕ) : ℝ :=
  |(∑ t in Finset.range d.trials,
    Real.sign ((analyticSignal d c1 t s).arg - (analyticSignal d c2 t s).arg)) /
    (d.trials : ℝ)|

/-- Concrete tensor: one trial, two identical (all-zero) channels, one sample. -/
noncomputable def zeroTensor2 : Tensor := ⟨1, 2, 1, fun _ _ _ => 0⟩

/-- Concrete tensor with two trials whose rows differ. -/
noncomputable def trialTensorA : Tensor := ⟨2, 1, 1, fun t _ _ => (t : ℝ)⟩

/-- A second concrete tensor agreeing with `trialTensorA` on trial row 0
only. -/
noncomputable def trialTensorB : Tensor := ⟨2, 1, 1, fun t _ _ => (t : ℝ) * 3⟩

/-! ## Helper lemmas -/

theorem npIndex_of_mem {n : ℕ} {i : ℤ} (h0 : 0 ≤ i) (h1 : i < (n : ℤ)) :
    npIndex n i = some i.toNat := by
  simp [npIndex, h0, h1]

theorem npIndex_eq_none {n : ℕ} {i : ℤ} (h : i < -(n : ℤ) ∨ (n : ℤ) ≤ i) :
    npIndex n i = none := by
  have h2 : ¬(0 ≤ i ∧ i < (n : ℤ)) := by omega
  have h3 : ¬(-(n : ℤ) ≤ i ∧ i < 0) := by omega
  simp [npIndex, h2, h3]

theorem calculate_plv_ok (d : Tensor) {ch1 ch2 : ℤ}
    (h10 : 0 ≤ ch1) (h11 : ch1 < (d.channels : ℤ))
    (h20 : 0 ≤ ch2) (h21 : ch2 < (d.channels : ℤ)) :
    calculate_plv d ch1 ch2 =
      .ok ((List.range d.samples).map (plvSample d ch1.toNat ch2.toNat)) := by
  unfold calculate_plv
  rw [npIndex_of_mem h10 h11, npIndex_of_mem h20 h21]

theorem calculate_iplv_ok (d : Tensor) {ch1 ch2 : ℤ}
    (h10 : 0 ≤ ch1) (h11 : ch1 < (d.channels : ℤ))
    (h20 : 0 ≤ ch2) (h21 : ch2 < (d.channels : ℤ)) :
    calculate_iplv d ch1 ch2 =
      .ok ((List.range d.samples).map (iplvSample d ch1.toNat ch2.toNat)) := by
  unfold calculate_iplv
  rw [npIndex_of_mem h10 h11, npIndex_of_mem h20 h21]

theorem calculate_pli_ok (d : Tensor) {ch1 ch2 : ℤ}
    (h10 : 0 ≤ ch1) (h11 : ch1 < (d.channels : ℤ))
    (h20 : 0 ≤ ch2) (h21 : ch2 < (d.channels : ℤ)) :
    calculate_pli d ch1 ch2 =
      .ok ((List.range d.samples).map (pliSample d ch1.toNat ch2.toNat)) := by
  unfold calculate_pli
  rw [npIndex_of_mem h10 h11, npIndex_of_mem h20 h21]

theorem calculate_wpli_ok (d : Tensor) {ch1 ch2 : ℤ}
    (h10 : 0 ≤ ch1) (h11 : ch1 < (d.channels : ℤ))
    (h20 : 0 ≤ ch2) (h21 : ch2 < (d.channels : ℤ)) :
    calculate_wpli d ch1 ch2 =
      .ok ((List.range d.samples).map (wpliSample d ch1.toNat ch2.toNat)) := by
  unfold calculate_wpli
  rw [npIndex_of_mem h10 h11, npIndex_of_mem h20 h21]

theorem calculate_plv_err_of_none (d : Tensor) {ch1 ch2 : ℤ}
    (k : npIndex d.channels ch1 = none ∨ npIndex d.channels ch2 = none) :
    calculate_plv d ch1 ch2 = .error ("IndexError") := by
  unfold calculate_plv
  rcases k with hk | hk
  · rw [hk]
  · rw [hk]
    cases npIndex d.channels ch1 <;> rfl

theorem calculate_iplv_err_of_none (d : Tensor) {ch1 ch2 : ℤ}
    (k : npIndex d.channels ch1 = none ∨ npIndex d.channels ch2 = none) :
    calculate_iplv d ch1 ch2 = .error ("IndexError") := by
  unfold calculate_iplv
  rcases k with hk | hk
  · rw [hk]
  · rw [hk]
    cases npIndex d.channels ch1 <;> rfl

theorem calculate_pli_err_of_none (d : Tensor) {ch1 ch2 : ℤ}
    (k : npIndex d.channels ch1 = none ∨ npIndex d.channels ch2 = none) :
    calculate_pli d ch1 ch2 = .error ("IndexError") := by
  unfold calculate_pli
  rcases k with hk | hk
  · rw [hk]
  · rw [hk]
    cases npIndex d.channels ch1 <;> rfl

theorem calculate_wpli_err_of_none (d : Tensor) {ch1 ch2 : ℤ}
    (k : npIndex d.channels ch1 = none ∨ npIndex d.channels ch2 = none) :
    calculate_wpli d ch1 ch2 = .error ("IndexError") := by
  unfold calculate_wpli
  rcases k with hk | hk
  · rw [hk]
  · rw [hk]
    cases npIndex d.channels ch1 <;> rfl

theorem analyticSignal_congr_channel (d : Tensor) {c1 c2 : ℕ}
    (h : ∀ t s, d.val t c1 s = d.val t c2 s) (t s : ℕ) :
    analyticSignal d c1 t s = analyticSignal d c2 t s := by
  unfold analyticSignal
  congr 1
  funext s0
  exact h t s0

theorem crossSpectrum_im_eq_zero (d : Tensor) {c1 c2 : ℕ}
    (h : ∀ t s, d.val t c1 s = d.val t c2 s) (t s : ℕ) :
    (crossSpectrum d c1 c2 t s).im = 0 := by
  unfold crossSpectrum
  rw [analyticSignal_congr_channel d h t s, Complex.mul_conj]
  simp

theorem wpliDenom_eq_zero (d : Tensor) {c1 c2 : ℕ}
    (h : ∀ t s, d.val t c1 s = d.val t c2 s) (s : ℕ) :
    wpliDenom d c1 c2 s = 0 := by
  have h0 : ∀ t ∈ Finset.range d.trials, |(crossSpectrum d c1 c2 t s).im| = 0 := by
    intro t _
    rw [crossSpectrum_im_eq_zero d h t s, abs_zero]
  unfold wpliDenom
  rw [Finset.sum_eq_zero h0, zero_div]

/-! ## Claim theorems -/

/-- Claim C1 (code-bug evidence): at a concrete input whose two channels are
identical, the wPLI denominator is exactly zero at the (only) sample, and
`calculate_wpli` returns the silent non-finite 0/0 result (`none`, the NaN
encoding) — no explicitly defined policy value is produced at that sample. -/
theorem c1_wpli_zero_denominator_silent_nan :
    wpliDenom zeroTensor2 0 1 0 = 0 ∧
      calculate_wpli zeroTensor2 0 1 = .ok [none] := by
  have hval : ∀ t s, zeroTensor2.val t 0 s = zeroTensor2.val t 1 s := fun _ _ => rfl
  have hd : ∀ s, wpliDenom zeroTensor2 0 1 s = 0 := wpliDenom_eq_zero zeroTensor2 hval
  refine ⟨hd 0, ?_⟩
  rw [calculate_wpli_ok zeroTensor2 (by decide) (by decide) (by decide) (by decide)]
  have hsamp : wpliSample zeroTensor2 0 1 0 = none := by
    simp [wpliSample, hd 0]
  rw [show List.range zeroTensor2.samples = [0] from rfl, List.map_cons, List.map_nil]
  simp only [Int.toNat_zero, Int.toNat_one, hsamp]

/-- Claim C2: for every well-formed tensor and valid channel index `c`,
calling `calculate_wpli` with `ch1 = ch2 = c` makes the denominator exactly
zero at every sample (the cross-spectrum of a channel with itself has
identically vanishing imaginary part), so every sample falls into the 0/0
branch and no finite synchrony value is produced for any sample. -/
theorem c2_self_pair_zero_denominator (d : Tensor) (c : ℤ)
    (h0 : 0 ≤ c) (h1 : c < (d.channels : ℤ)) (ht : 0 < d.trials) :
    (∀ s, wpliDenom d c.toNat c.toNat s = 0) ∧
      calculate_wpli d c c = .ok ((List.range d.samples).map fun _ => (none : Option ℝ)) := by
  have hd : ∀ s, wpliDenom d c.toNat c.toNat s = 0 :=
    wpliDenom_eq_zero d (fun _ _ => rfl)
  refine ⟨hd, ?_⟩
  rw [calculate_wpli_ok d h0 h1 h0 h1]
  have hf : wpliSample d c.toNat c.toNat = fun _ => (none : Option ℝ) := by
    funext s
    simp [wpliSample, hd s]
  rw [hf]

/-- Claim C2 witness: the concrete instance at `zeroTensor2`, channel 0. -/
theorem c2_self_pair_zero_denominator_witness :
    (0 : ℤ) ≤ 0 ∧ (0 : ℤ) < (zeroTensor2.channels : ℤ) ∧ 0 < zeroTensor2.trials ∧
      ((∀ s, wpliDenom zeroTensor2 (0 : ℤ).toNat (0 : ℤ).toNat s = 0) ∧
        calculate_wpli zeroTensor2 0 0 =
          .ok ((List.range zeroTensor2.samples).map fun _ => (none : Option ℝ))) :=
  ⟨by decide, by decide, by decide,
    c2_self_pair_zero_denominator zeroTensor2 0 (by decide) (by decide) (by decide)⟩

/-- Claim C3 counterexample: the claim says every integer channel index
outside [0, channel_count) — including negative integers — makes the metric
functions fail with an error.  But numpy indexing accepts `-1` (wrapping to
the last channel), so `calculate_plv` returns a fully computed result. -/
theorem c3_negative_index_accepted :
    calculate_plv zeroTensor2 (-1) 0 =
      .ok ((List.range 1).map (plvSample zeroTensor2 1 0)) := by
  unfold calculate_plv
  have h1 : npIndex zeroTensor2.channels (-1) = some 1 := by decide
  have h2 : npIndex zeroTensor2.channels 0 = some 0 := by decide
  rw [h1, h2]
  rfl

/-- Claim C3 amended: each of the four metric functions fails immediately
with an error, returning no partial computation, for every integer channel
index outside the numpy-valid range [−channel_count, channel_count);
negative indices in [−channel_count, 0) are instead accepted and wrap. -/
theorem c3_out_of_range_index_errors (d : Tensor) (ch1 ch2 : ℤ)
    (h : ch1 < -(d.channels : ℤ) ∨ (d.channels : ℤ) ≤ ch1 ∨
      ch2 < -(d.channels : ℤ) ∨ (d.channels : ℤ) ≤ ch2) :
    calculate_plv d ch1 ch2 = .error ("IndexError") ∧
      calculate_iplv d ch1 ch2 = .error ("IndexError") ∧
      calculate_pli d ch1 ch2 = .error ("IndexError") ∧
      calculate_wpli d ch1 ch2 = .error ("IndexError") := by
  have key : npIndex d.channels ch1 = none ∨ npIndex d.channels ch2 = none := by
    rcases h with h | h | h | h
    · exact Or.inl (npIndex_eq_none (Or.inl h))
    · exact Or.inl (npIndex_eq_none (Or.inr h))
    · exact Or.inr (npIndex_eq_none (Or.inl h))
    · exact Or.inr (npIndex_eq_none (Or.inr h))
  exact ⟨calculate_plv_err_of_none d key, calculate_iplv_err_of_none d key,
    calculate_pli_err_of_none d key, calculate_wpli_err_of_none d key⟩

/-- Claim C3 amended witness: index 5 on a 2-channel tensor errors for all
four metrics. -/
theorem c3_out_of_range_index_errors_witness :
    ((5 : ℤ) < -(zeroTensor2.channels : ℤ) ∨ (zeroTensor2.channels : ℤ) ≤ 5 ∨
      (0 : ℤ) < -(zeroTensor2.channels : ℤ) ∨ (zeroTensor2.channels : ℤ) ≤ 0) ∧
      (calculate_plv zeroTensor2 5 0 = .error ("IndexError") ∧
        calculate_iplv zeroTensor2 5 0 = .error ("IndexError") ∧
        calculate_pli zeroTensor2 5 0 = .error ("IndexError") ∧
        calculate_wpli zeroTensor2 5 0 = .error ("IndexError")) :=
  ⟨by decide, c3_out_of_range_index_errors zeroTensor2 5 0 (by decide)⟩

/-- Claim C4: for a well-formed tensor and valid channel pair,
`calculate_plv` returns at each sample the magnitude of the arithmetic mean
over trials of `exp(i × (angle(analytic ch1) − angle(analytic ch2)))`, the
phase difference being the raw angle difference (not wrapped before
exponentiation). -/
theorem c4_plv_is_abs_mean_exp_raw_phase_diff (d : Tensor) (ch1 ch2 : ℤ) (s : ℕ)
    (h10 : 0 ≤ ch1) (h11 : ch1 < (d.channels : ℤ))
    (h20 : 0 ≤ ch2) (h21 : ch2 < (d.channels : ℤ))
    (ht : 0 < d.trials) (hs : s < d.samples) :
    ∃ l, calculate_plv d ch1 ch2 = .ok l ∧
      l.get? s = some (plvSpecSample d ch1.toNat ch2.toNat s) := by
  clear ht
  refine ⟨_, calculate_plv_ok d h10 h11 h20 h21, ?_⟩
  rw [List.get?_map, List.get?_range hs, Option.map_some']
  congr 1
  unfold plvSample plvSpecSample phaseDifference
  simp [Complex.ofReal_sub]

/-- Claim C4 witness: the concrete instance at `zeroTensor2`. -/
theorem c4_plv_is_abs_mean_exp_raw_phase_diff_witness :
    (0 : ℤ) ≤ 0 ∧ (0 : ℤ) < (zeroTensor2.channels : ℤ) ∧
      (0 : ℤ) ≤ 1 ∧ (1 : ℤ) < (zeroTensor2.channels : ℤ) ∧
      0 < zeroTensor2.trials ∧ 0 < zeroTensor2.samples ∧
      (∃ l, calculate_plv zeroTensor2 0 1 = .ok l ∧
        l.get? 0 = some (plvSpecSample zeroTensor2 (0 : ℤ).toNat (1 : ℤ).toNat 0)) :=
  ⟨by decide, by decide, by decide, by decide, by decide, by decide,
    c4_plv_is_abs_mean_exp_raw_phase_diff zeroTensor2 0 1 0 (by decide) (by decide)
      (by decide) (by decide) (by decide) (by decide)⟩

/-- Claim C5: `calculate_iplv` follows PLV's pipeline through the complex
exponential, takes the imaginary component of each per-trial value before
the trial mean, then averages, then takes the absolute value. -/
theorem c5_iplv_is_abs_mean_im_exp (d : Tensor) (ch1 ch2 : ℤ) (s : ℕ)
    (h10 : 0 ≤ ch1) (h11 : ch1 < (d.channels : ℤ))
    (h20 : 0 ≤ ch2) (h21 : ch2 < (d.channels : ℤ))
    (ht : 0 < d.trials) (hs : s < d.samples) :
    ∃ l, calculate_iplv d ch1 ch2 = .ok l ∧
      l.get? s = some (iplvSpecSample d ch1.toNat ch2.toNat s) := by
  clear ht
  refine ⟨_, calculate_iplv_ok d h10 h11 h20 h21, ?_⟩
  rw [List.get?_map, List.get?_range hs, Option.map_some']
  congr 1
  unfold iplvSample iplvSpecSample phaseDifference
  simp [Complex.ofReal_sub]

/-- Claim C5 witness: the concrete instance at `zeroTensor2`. -/
theorem c5_iplv_is_abs_mean_im_exp_witness :
    (0 : ℤ) ≤ 0 ∧ (0 : ℤ) < (zeroTensor2.channels : ℤ) ∧
      (0 : ℤ) ≤ 1 ∧ (1 : ℤ) < (zeroTensor2.channels : ℤ) ∧
      0 < zeroTensor2.trials ∧ 0 < zeroTensor2.samples ∧
      (∃ l, calculate_iplv zeroTensor2 0 1 = .ok l ∧
        l.get? 0 = some (iplvSpecSample zeroTensor2 (0 : ℤ).toNat (1 : ℤ).toNat 0)) :=
  ⟨by decide, by decide, by decide, by decide, by decide, by decide,
    c5_iplv_is_abs_mean_im_exp zeroTensor2 0 1 0 (by decide) (by decide)
      (by decide) (by decide) (by decide) (by decide)⟩

/-- Claim C6: `calculate_pli` returns at each sample the absolute value of
the trial mean of `sign(phase difference)`, the sign applied to the raw,
unwrapped angle difference with no complex exponential and no wrapping. -/
theorem c6_pli_is_abs_mean_sign_raw_phase_diff (d : Tensor) (ch1 ch2 : ℤ) (s : ℕ)
    (h10 : 0 ≤ ch1) (h11 : ch1 < (d.channels : ℤ))
    (h20 : 0 ≤ ch2) (h21 : ch2 < (d.channels : ℤ))
    (ht : 0 < d.trials) (hs : s < d.samples) :
    ∃ l, calculate_pli d ch1 ch2 = .ok l ∧
      l.get? s = some (pliSpecSample d ch1.toNat ch2.toNat s) := by
  clear ht
  refine ⟨_, calculate_pli_ok d h10 h11 h20 h21, ?_⟩
  rw [List.get?_map, List.get?_range hs, Option.map_some']
  congr 1

/-- Claim C6 witness: the concrete instance at `zeroTensor2`. -/
theorem c6_pli_is_abs_mean_sign_raw_phase_diff_witness :
    (0 : ℤ) ≤ 0 ∧ (0 : ℤ) < (zeroTensor2.channels : ℤ) ∧
      (0 : ℤ) ≤ 1 ∧ (1 : ℤ) < (zeroTensor2.channels : ℤ) ∧
      0 < zeroTensor2.trials ∧ 0 < zeroTensor2.samples ∧
      (∃ l, calculate_pli zeroTensor2 0 1 = .ok l ∧
        l.get? 0 = some (pliSpecSample zeroTensor2 (0 : ℤ).toNat (1 : ℤ).toNat 0)) :=
  ⟨by decide, by decide, by decide, by decide, by decide, by decide,
    c6_pli_is_abs_mean_sign_raw_phase_diff zeroTensor2 0 1 0 (by decide) (by decide)
      (by decide) (by decide) (by decide) (by decide)⟩

theorem abs_exp_I_mul_ofReal (x : ℝ) :
    Complex.abs (Complex.exp (Complex.I * (x : ℂ))) = 1 := by
  rw [mul_comm, Complex.abs_exp_ofReal_mul_I]

theorem abs_im_exp_I_mul_ofReal_le_one (x : ℝ) :
    |(Complex.exp (Complex.I * (x : ℂ))).im| ≤ 1 := by
  have h := Complex.abs_im_le_abs (Complex.exp (Complex.I * (x : ℂ)))
  rwa [abs_exp_I_mul_ofReal] at h

theorem abs_real_sign_le_one (x : ℝ) : |Real.sign x| ≤ 1 := by
  rcases lt_trichotomy x 0 with h | h | h
  · rw [Real.sign_of_neg h]
    norm_num
  · rw [h, Real.sign_zero]
    norm_num
  · rw [Real.sign_of_pos h]
    norm_num

theorem plvSample_nonneg (d : Tensor) (c1 c2 s : ℕ) : 0 ≤ plvSample d c1 c2 s := by
  unfold plvSample
  exact Complex.abs.nonneg _

theorem plvSample_le_one (d : Tensor) (c1 c2 s : ℕ) (ht : 0 < d.trials) :
    plvSample d c1 c2 s ≤ 1 := by
  have htR : (0 : ℝ) < (d.trials : ℝ) := by exact_mod_cast ht
  unfold plvSample
  rw [map_div₀, Complex.abs_natCast, div_le_one htR]
  calc Complex.abs (∑ t in Finset.range d.trials,
        Complex.exp (Complex.I * (phaseDifference d c1 c2 t s : ℂ)))
      ≤ ∑ t in Finset.range d.trials,
          Complex.abs (Complex.exp (Complex.I * (phaseDifference d c1 c2 t s : ℂ))) :=
        Complex.abs.sum_le _ _
    _ = ∑ t in Finset.range d.trials, (1 : ℝ) :=
        Finset.sum_congr rfl fun t _ => abs_exp_I_mul_ofReal _
    _ = (d.trials : ℝ) := by simp

theorem iplvSample_nonneg (d : Tensor) (c1 c2 s : ℕ) : 0 ≤ iplvSample d c1 c2 s := by
  unfold iplvSample
  exact abs_nonneg _

theorem iplvSample_le_one (d : Tensor) (c1 c2 s : ℕ) (ht : 0 < d.trials) :
    iplvSample d c1 c2 s ≤ 1 := by
  have htR : (0 : ℝ) < (d.trials : ℝ) := by exact_mod_cast ht
  unfold iplvSample
  rw [abs_div, abs_of_pos htR, div_le_one htR]
  calc |∑ t in Finset.range d.trials,
        (Complex.exp (Complex.I * (phaseDifference d c1 c2 t s : ℂ))).im|
      ≤ ∑ t in Finset.range d.trials,
          |(Complex.exp (Complex.I * (phaseDifference d c1 c2 t s : ℂ))).im| :=
        Finset.abs_sum_le_sum_abs _ _
    _ ≤ ∑ t in Finset.range d.trials, (1 : ℝ) :=
        Finset.sum_le_sum fun t _ => abs_im_exp_I_mul_ofReal_le_one _
    _ = (d.trials : ℝ) := by simp

theorem pliSample_nonneg (d : Tensor) (c1 c2 s : ℕ) : 0 ≤ pliSample d c1 c2 s := by
  unfold pliSample
  exact abs_nonneg _

theorem pliSample_le_one (d : Tensor) (c1 c2 s : ℕ) (ht : 0 < d.trials) :
    pliSample d c1 c2 s ≤ 1 := by
  have htR : (0 : ℝ) < (d.trials : ℝ) := by exact_mod_cast ht
  unfold pliSample
  rw [abs_div, abs_of_pos htR, div_le_one htR]
  calc |∑ t in Finset.range d.trials, Real.sign (phaseDifference d c1 c2 t s)|
      ≤ ∑ t in Finset.range d.trials, |Real.sign (phaseDifference d c1 c2 t s)| :=
        Finset.abs_sum_le_sum_abs _ _
    _ ≤ ∑ t in Finset.range d.trials, (1 : ℝ) :=
        Finset.sum_le_sum fun t _ => abs_real_sign_le_one _
    _ = (d.trials : ℝ) := by simp

/-- Claim C7: for every well-formed tensor and valid channel pair, every
per-sample value returned by `calculate_plv`, `calculate_iplv` and
`calculate_pli` lies in the closed interval [0, 1]. -/
theorem c7_metrics_lie_in_unit_interval (d : Tensor) (ch1 ch2 : ℤ)
    (h10 : 0 ≤ ch1) (h11 : ch1 < (d.channels : ℤ))
    (h20 : 0 ≤ ch2) (h21 : ch2 < (d.channels : ℤ)) (ht : 0 < d.trials) :
    ∃ l1 l2 l3,
      calculate_plv d ch1 ch2 = .ok l1 ∧ (∀ x ∈ l1, 0 ≤ x ∧ x ≤ 1) ∧
      calculate_iplv d ch1 ch2 = .ok l2 ∧ (∀ x ∈ l2, 0 ≤ x ∧ x ≤ 1) ∧
      calculate_pli d ch1 ch2 = .ok l3 ∧ (∀ x ∈ l3, 0 ≤ x ∧ x ≤ 1) := by
  refine ⟨_, _, _, calculate_plv_ok d h10 h11 h20 h21, ?_,
    calculate_iplv_ok d h10 h11 h20 h21, ?_, calculate_pli_ok d h10 h11 h20 h21, ?_⟩
  · intro x hx
    obtain ⟨s, _, rfl⟩ := List.mem_map.mp hx
    exact ⟨plvSample_nonneg d _ _ s, plvSample_le_one d _ _ s ht⟩
  · intro x hx
    obtain ⟨s, _, rfl⟩ := List.mem_map.mp hx
    exact ⟨iplvSample_nonneg d _ _ s, iplvSample_le_one d _ _ s ht⟩
  · intro x hx
    obtain ⟨s, _, rfl⟩ := List.mem_map.mp hx
    exact ⟨pliSample_nonneg d _ _ s, pliSample_le_one d _ _ s ht⟩

/-- Claim C7 witness: the concrete instance at `zeroTensor2`. -/
theorem c7_metrics_lie_in_unit_interval_witness :
    (0 : ℤ) ≤ 0 ∧ (0 : ℤ) < (zeroTensor2.channels : ℤ) ∧
      (0 : ℤ) ≤ 1 ∧ (1 : ℤ) < (zeroTensor2.channels : ℤ) ∧ 0 < zeroTensor2.trials ∧
      (∃ l1 l2 l3,
        calculate_plv zeroTensor2 0 1 = .ok l1 ∧ (∀ x ∈ l1, 0 ≤ x ∧ x ≤ 1) ∧
        calculate_iplv zeroTensor2 0 1 = .ok l2 ∧ (∀ x ∈ l2, 0 ≤ x ∧ x ≤ 1) ∧
        calculate_pli zeroTensor2 0 1 = .ok l3 ∧ (∀ x ∈ l3, 0 ≤ x ∧ x ≤ 1)) :=
  ⟨by decide, by decide, by decide, by decide, by decide,
    c7_metrics_lie_in_unit_interval zeroTensor2 0 1 (by decide) (by decide)
      (by decide) (by decide) (by decide)⟩

theorem plvSample_self_eq_one (d : Tensor) (c s : ℕ) (ht : 0 < d.trials) :
    plvSample d c c s = 1 := by
  unfold plvSample
  have h0 : ∀ t ∈ Finset.range d.trials,
      Complex.exp (Complex.I * (phaseDifference d c c t s : ℂ)) = 1 := by
    intro t _
    unfold phaseDifference
    simp
  rw [Finset.sum_congr rfl h0, Finset.sum_const, Finset.card_range, nsmul_eq_mul, mul_one,
    div_self (by exact_mod_cast ht.ne' : (d.trials : ℂ) ≠ 0), map_one]

theorem pliSample_self_eq_zero (d : Tensor) (c s : ℕ) : pliSample d c c s = 0 := by
  unfold pliSample
  have h0 : ∀ t ∈ Finset.range d.trials, Real.sign (phaseDifference d c c t s) = 0 := by
    intro t _
    unfold phaseDifference
    simp [sub_self, Real.sign_zero]
  rw [Finset.sum_eq_zero h0, zero_div, abs_zero]

/-- Claim C8: with `ch1 = ch2 = c` the phase difference is exactly zero at
every trial and sample, so `calculate_plv` yields 1 at every sample and
`calculate_pli` yields 0 at every sample. -/
theorem c8_self_comparison_plv_one_pli_zero (d : Tensor) (c : ℤ)
    (h0 : 0 ≤ c) (h1 : c < (d.channels : ℤ)) (ht : 0 < d.trials) :
    ∃ l1 l2, calculate_plv d c c = .ok l1 ∧ (∀ x ∈ l1, x = 1) ∧
      calculate_pli d c c = .ok l2 ∧ (∀ x ∈ l2, x = 0) := by
  refine ⟨_, _, calculate_plv_ok d h0 h1 h0 h1, ?_, calculate_pli_ok d h0 h1 h0 h1, ?_⟩
  · intro x hx
    obtain ⟨s, _, rfl⟩ := List.mem_map.mp hx
    exact plvSample_self_eq_one d _ s ht
  · intro x hx
    obtain ⟨s, _, rfl⟩ := List.mem_map.mp hx
    exact pliSample_self_eq_zero d _ s

/-- Claim C8 witness: the concrete instance at `zeroTensor2`, channel 0. -/
theorem c8_self_comparison_plv_one_pli_zero_witness :
    (0 : ℤ) ≤ 0 ∧ (0 : ℤ) < (zeroTensor2.channels : ℤ) ∧ 0 < zeroTensor2.trials ∧
      (∃ l1 l2, calculate_plv zeroTensor2 0 0 = .ok l1 ∧ (∀ x ∈ l1, x = 1) ∧
        calculate_pli zeroTensor2 0 0 = .ok l2 ∧ (∀ x ∈ l2, x = 0)) :=
  ⟨by decide, by decide, by decide,
    c8_self_comparison_plv_one_pli_zero zeroTensor2 0 (by decide) (by decide) (by decide)⟩

/-- Claim C9: the analytic-signal computation treats each trial
independently: if two tensors with the same sample count agree on trial row
`t` of the selected channel slices, the analytic signal and the
cross-spectrum computed for trial row `t` are identical, whatever the other
trial rows contain. -/
theorem c9_analytic_signal_trial_independence (d d2 : Tensor)
    (hs : d.samples = d2.samples) (t c1 c2 : ℕ)
    (h1 : ∀ s, d.val t c1 s = d2.val t c1 s)
    (h2 : ∀ s, d.val t c2 s = d2.val t c2 s) :
    (∀ s, analyticSignal d c1 t s = analyticSignal d2 c1 t s) ∧
      (∀ s, crossSpectrum d c1 c2 t s = crossSpectrum d2 c1 c2 t s) := by
  have a1 : ∀ s, analyticSignal d c1 t s = analyticSignal d2 c1 t s := by
    intro s
    unfold analyticSignal
    rw [hs]
    congr 1
    funext s0
    exact h1 s0
  have a2 : ∀ s, analyticSignal d c2 t s = analyticSignal d2 c2 t s := by
    intro s
    unfold analyticSignal
    rw [hs]
    congr 1
    funext s0
    exact h2 s0
  refine ⟨a1, fun s => ?_⟩
  unfold crossSpectrum
  rw [a1 s, a2 s]

/-- Claim C9 witness: two concrete tensors that agree on trial row 0 only. -/
theorem c9_analytic_signal_trial_independence_witness :
    trialTensorA.samples = trialTensorB.samples ∧
      (∀ s, trialTensorA.val 0 0 s = trialTensorB.val 0 0 s) ∧
      ((∀ s, analyticSignal trialTensorA 0 0 s = analyticSignal trialTensorB 0 0 s) ∧
        (∀ s, crossSpectrum trialTensorA 0 0 0 s = crossSpectrum trialTensorB 0 0 0 s)) := by
  have h : ∀ s, trialTensorA.val 0 0 s = trialTensorB.val 0 0 s := by
    intro s
    norm_num [trialTensorA, trialTensorB]
  exact ⟨rfl, h, c9_analytic_signal_trial_independence trialTensorA trialTensorB rfl 0 0 0 h h⟩

/-- Claim C10: for every well-formed tensor and valid channel pair, each of
the four metric functions returns a one-dimensional array whose length is
exactly the tensor's sample-axis length. -/
theorem c10_output_length_is_sample_count (d : Tensor) (ch1 ch2 : ℤ)
    (h10 : 0 ≤ ch1) (h11 : ch1 < (d.channels : ℤ))
    (h20 : 0 ≤ ch2) (h21 : ch2 < (d.channels : ℤ)) :
    ∃ l1 l2 l3 l4,
      calculate_plv d ch1 ch2 = .ok l1 ∧ l1.length = d.samples ∧
      calculate_iplv d ch1 ch2 = .ok l2 ∧ l2.length = d.samples ∧
      calculate_pli d ch1 ch2 = .ok l3 ∧ l3.length = d.samples ∧
      calculate_wpli d ch1 ch2 = .ok l4 ∧ l4.length = d.samples := by
  refine ⟨_, _, _, _, calculate_plv_ok d h10 h11 h20 h21, ?_,
    calculate_iplv_ok d h10 h11 h20 h21, ?_, calculate_pli_ok d h10 h11 h20 h21, ?_,
    calculate_wpli_ok d h10 h11 h20 h21, ?_⟩ <;> simp

/-- Claim C10 witness: the concrete instance at `zeroTensor2`. -/
theorem c10_output_length_is_sample_count_witness :
    (0 : ℤ) ≤ 0 ∧ (0 : ℤ) < (zeroTensor2.channels : ℤ) ∧
      (0 : ℤ) ≤ 1 ∧ (1 : ℤ) < (zeroTensor2.channels : ℤ) ∧
      (∃ l1 l2 l3 l4,
        calculate_plv zeroTensor2 0 1 = .ok l1 ∧ l1.length = zeroTensor2.samples ∧
        calculate_iplv zeroTensor2 0 1 = .ok l2 ∧ l2.length = zeroTensor2.samples ∧
        calculate_pli zeroTensor2 0 1 = .ok l3 ∧ l3.length = zeroTensor2.samples ∧
        calculate_wpli zeroTensor2 0 1 = .ok l4 ∧ l4.length = zeroTensor2.samples) :=
  ⟨by decide, by decide, by decide, by decide,
    c10_output_length_is_sample_count zeroTensor2 0 1 (by decide) (by decide)
      (by decide) (by decide)⟩

end ErpPhaseAnalysis
